import Mathlib

/-!
Verification of the digital caliper firmware (`digital_caliper.ino`).

The development shallowly embeds the three core components of the firmware:

* the interrupt handler `read_bit`, which accumulates a 24-bit frame
  LSB-first and detects frame boundaries by an inter-edge timeout measured
  with wraparound-safe unsigned 32-bit subtraction;
* the frame handoff performed by `loop` (here `loopDrain`), which copies
  the completed frame inside a critical section and clears the ready flag;
* the packet decoder `handleData`, which extracts the 20-bit magnitude and
  the flag nibble, applies sign, clamps to ±15000 hundredths of a
  millimeter, scales to millimeters and optionally converts to inches.

Machine integers are modelled as `ℕ` with explicit reduction modulo `2^32`
where the C code relies on `unsigned long` overflow; the floating-point
`measurement` is modelled over `ℚ`.
-/

namespace DigitalCaliper

/-- Modulus of the 32-bit microsecond timer (`unsigned long` / `micros()`). -/
def TWO32 : ℕ := 4294967296

/-- Constant `PACKET_TIMEOUT_US` from the source: if the gap since the last
edge exceeds this many microseconds, the edge starts a new packet. -/
def PACKET_TIMEOUT_US : ℕ := 5000

/-- The expression `current_time - last_interrupt_time` as computed by the
source on 32-bit unsigned integers: subtraction modulo `2^32`. -/
def elapsed32 (t last : ℕ) : ℕ := (t % TWO32 + TWO32 - last % TWO32) % TWO32

/-- The interrupt-owned globals of the sketch: `caliper_raw_data`,
`bit_counter`, `new_packet_ready` and `last_interrupt_time`. -/
structure CaliperState where
  caliper_raw_data : ℕ
  bit_counter : ℕ
  new_packet_ready : Bool
  last_interrupt_time : ℕ
deriving DecidableEq

/-- Initial values of the globals (all zero / false). -/
def initState : CaliperState := ⟨0, 0, false, 0⟩

/-- Embedding of the ISR `read_bit`, called on every rising clock edge with
the current `micros()` value and the sampled DATA level. -/
def read_bit (current_time : ℕ) (dataHigh : Bool) (s : CaliperState) : CaliperState :=
  let s1 := if elapsed32 current_time s.last_interrupt_time > PACKET_TIMEOUT_US then
      { s with bit_counter := 0, caliper_raw_data := 0 }
    else s
  let s2 := { s1 with last_interrupt_time := current_time % TWO32 }
  let s3 := if s2.bit_counter < 24 then
      { s2 with
        caliper_raw_data :=
          if dataHigh then s2.caliper_raw_data ||| (1 <<< s2.bit_counter)
          else s2.caliper_raw_data,
        bit_counter := s2.bit_counter + 1 }
    else s2
  if s3.bit_counter = 24 then { s3 with new_packet_ready := true } else s3

/-- Run a list of edges `(timestamp, dataHigh)` through `read_bit`. -/
def runEdges : List (ℕ × Bool) → CaliperState → CaliperState
  | [], s => s
  | (t, d) :: es, s => runEdges es (read_bit t d s)

/-- Embedding of the drain in `loop`: if `new_packet_ready`, atomically copy
`caliper_raw_data` and clear the flag (the source brackets the copy with
`noInterrupts` / `interrupts`), returning the copy; otherwise return
nothing and leave the state unchanged. -/
def loopDrain (s : CaliperState) : Option ℕ × CaliperState :=
  if s.new_packet_ready then
    (some s.caliper_raw_data, { s with new_packet_ready := false })
  else (none, s)

/-- An event of the whole system: an ISR invocation or a consumer poll. -/
inductive Ev where
  | edge : ℕ → Bool → Ev
  | poll : Ev
deriving DecidableEq

/-- Run a list of events, collecting the output of each step (`none` for
edges and unready polls, `some frame` for a successful drain). -/
def runEvents : List Ev → CaliperState → CaliperState × List (Option ℕ)
  | [], s => (s, [])
  | Ev.edge t d :: es, s =>
      let r := runEvents es (read_bit t d s)
      (r.1, none :: r.2)
  | Ev.poll :: es, s =>
      let p := loopDrain s
      let r := runEvents es p.2
      (r.1, p.1 :: r.2)

/-- Drain interleaved with ISR edges: the consumer reads `new_packet_ready`,
then the edges in `mid` fire, then the critical section (atomic, since the
source disables interrupts around it) copies `caliper_raw_data` and clears
the flag. -/
def drainWithEdges (mid : List (ℕ × Bool)) (s : CaliperState) : Option ℕ × CaliperState :=
  if s.new_packet_ready then
    let s1 := runEdges mid s
    (some s1.caliper_raw_data, { s1 with new_packet_ready := false })
  else (none, runEdges mid s)

/-- Value of a bit sequence read LSB-first, as accumulated by `read_bit`. -/
def accumBits : List Bool → ℕ
  | [] => 0
  | b :: bs => (if b then 1 else 0) + 2 * accumBits bs

/-- All inter-edge gaps of the edge list, measured from `last` with the
source's modular subtraction, stay at or below `PACKET_TIMEOUT_US`. -/
def gapsWithinB (last : ℕ) : List (ℕ × Bool) → Bool
  | [] => true
  | (t, _) :: es => decide (elapsed32 t last ≤ PACKET_TIMEOUT_US) && gapsWithinB (t % TWO32) es

/-- The Arduino `bitRead` macro: `(value >> bit) & 1`. -/
def bitRead (value : ℕ) (bit : ℕ) : ℕ := (value >>> bit) &&& 1

/-- The Arduino `constrain` macro on signed integers:
`(amt < low) ? low : ((amt > high) ? high : amt)`. -/
def constrain (amt low high : ℤ) : ℤ :=
  if amt < low then low else if amt > high then high else amt

/-- The values computed by `handleData` from one raw frame: the clamped
signed magnitude, the flag nibble, the unit flag, the millimeter value
right after the division by 100 (before inch conversion) and the final
measurement. -/
structure DecodedMeasurement where
  integerMeasurement : ℤ
  flags : ℕ
  inch : Bool
  measurementMm : ℚ
  measurement : ℚ
deriving DecidableEq

/-- The value computation of `handleData`, step for step: extract the low
20 bits, extract the flag nibble, apply the sign from flag bit 0, read the
unit from flag bit 3, clamp to `[-15000, 15000]`, divide by 100, and divide
by 25.4 when the unit flag is set. -/
def decodeFrame (data_copy : ℕ) : DecodedMeasurement :=
  let im0 : ℤ := ((data_copy &&& 0xFFFFF : ℕ) : ℤ)
  let flags : ℕ := (data_copy >>> 20) &&& 0xF
  let im1 : ℤ := im0 * (if bitRead flags 0 ≠ 0 then -1 else 1)
  let inch : Bool := bitRead flags 3 != 0
  let im2 : ℤ := constrain im1 (-15000) 15000
  let measurementMm : ℚ := (im2 : ℚ) / 100
  let measurement : ℚ := if inch then measurementMm / (254 / 10) else measurementMm
  ⟨im2, flags, inch, measurementMm, measurement⟩

/-- The non-interrupt globals touched by `handleData` and
`printResultToOutput`: the decoded `measurement`, the `inch` flag, and the
serial port, modelled as the list of lines printed so far (each line
carries the raw frame, the printed measurement and the flag nibble). -/
structure Globals where
  measurement : ℚ
  inch : Bool
  serial : List (ℕ × ℚ × ℕ)
deriving DecidableEq

/-- Embedding of `printResultToOutput`: prints one diagnostic line holding
the raw binary data, the current global `measurement` and the flag nibble. -/
def printResultToOutput (binaryData : ℕ) (flags : ℕ) (g : Globals) : Globals :=
  { g with serial := g.serial ++ [(binaryData, g.measurement, flags)] }

/-- Embedding of `handleData`: computes the decoded values, stores them in
the globals `measurement` and `inch`, then calls `printResultToOutput`. -/
def handleData (data_copy : ℕ) (g : Globals) : Globals :=
  let d := decodeFrame data_copy
  printResultToOutput data_copy d.flags
    { g with measurement := d.measurement, inch := d.inch }

/-! ### Helper lemmas -/

/-- Oring a power of two into a number below it is addition. -/
theorem or_two_pow_of_lt : ∀ (k v : ℕ), v < 2 ^ k → v ||| 2 ^ k = v + 2 ^ k := by
  intro k
  induction k with
  | zero =>
    intro v hv
    interval_cases v
    decide
  | succ k ih =>
    intro v hv
    have hb := Nat.bit_decomp v
    have h2 : (2 : ℕ) ^ (k + 1) = Nat.bit false (2 ^ k) := by
      simp [Nat.bit_val, Nat.pow_succ, Nat.mul_comm]
    have hv2 : Nat.div2 v < 2 ^ k := by
      have : Nat.div2 v = v / 2 := Nat.div2_val v
      rw [this]
      omega
    calc v ||| 2 ^ (k + 1)
        = Nat.bit (Nat.bodd v) (Nat.div2 v) ||| Nat.bit false (2 ^ k) := by rw [hb, ← h2]
      _ = Nat.bit (Nat.bodd v || false) (Nat.div2 v ||| 2 ^ k) := Nat.lor_bit _ _ _ _
      _ = Nat.bit (Nat.bodd v) (Nat.div2 v + 2 ^ k) := by rw [Bool.or_false, ih _ hv2]
      _ = v + 2 ^ (k + 1) := by
          rw [Nat.bit_val, Nat.pow_succ]
          conv_rhs => rw [← hb]
          rw [Nat.bit_val]
          ring

/-- The `constrain` result lies between its bounds whenever they are ordered. -/
theorem constrain_mem (amt low high : ℤ) (h : low ≤ high) :
    low ≤ constrain amt low high ∧ constrain amt low high ≤ high := by
  unfold constrain
  split <;> [omega; split <;> omega]

/-- `bitRead` is the indicator of `Nat.testBit`. -/
theorem bitRead_eq_testBit (value bit : ℕ) :
    bitRead value bit = (value.testBit bit).toNat := by
  rw [bitRead, Nat.and_one_is_mod, Nat.shiftRight_eq_div_pow, Nat.testBit_to_div_mod]
  rcases Nat.mod_two_eq_zero_or_one (value / 2 ^ bit) with h | h <;> simp [h]

/-- Behaviour of `read_bit` on an in-frame edge: gap within the timeout and
fewer than 24 bits collected so far.  The sampled bit is ored into position
`bit_counter`, the counter is incremented, the timestamp is updated, and the
ready flag is raised exactly when the counter reaches 24. -/
theorem read_bit_step (t : ℕ) (d : Bool) (s : CaliperState)
    (hgap : elapsed32 t s.last_interrupt_time ≤ PACKET_TIMEOUT_US)
    (hk : s.bit_counter < 24) :
    read_bit t d s =
      ⟨(if d then s.caliper_raw_data ||| (1 <<< s.bit_counter) else s.caliper_raw_data),
       s.bit_counter + 1,
       (if s.bit_counter + 1 = 24 then true else s.new_packet_ready),
       t % TWO32⟩ := by
  unfold read_bit
  dsimp only
  split_ifs with h1 h2 h3 h4 h5 <;> first | rfl | omega

/-- Behaviour of `read_bit` on a frame-start edge: gap beyond the timeout.
The accumulator is cleared, the sampled bit becomes bit 0 of the new frame,
and the ready flag keeps its previous value. -/
theorem read_bit_reset (t : ℕ) (d : Bool) (s : CaliperState)
    (hgap : elapsed32 t s.last_interrupt_time > PACKET_TIMEOUT_US) :
    read_bit t d s = ⟨(if d then 1 else 0), 1, s.new_packet_ready, t % TWO32⟩ := by
  unfold read_bit
  dsimp only
  split_ifs with h1 h2 h3 h4 h5 <;> first | rfl | omega | simp_all

/-- Behaviour of `read_bit` on an in-timeout edge while the frame is already
complete: only the timestamp and the ready flag change. -/
theorem read_bit_full (t : ℕ) (d : Bool) (s : CaliperState)
    (hgap : elapsed32 t s.last_interrupt_time ≤ PACKET_TIMEOUT_US)
    (hk : s.bit_counter = 24) :
    read_bit t d s =
      ⟨s.caliper_raw_data, s.bit_counter, true, t % TWO32⟩ := by
  unfold read_bit
  dsimp only
  split_ifs with h1 h2 h3 h4 h5 <;> first | rfl | omega

/-- The accumulator invariant: at most 24 bits counted, and `caliper_raw_data`
only holds bits below `bit_counter`. -/
def Inv (s : CaliperState) : Prop :=
  s.bit_counter ≤ 24 ∧ s.caliper_raw_data < 2 ^ s.bit_counter

/-- `read_bit` preserves the accumulator invariant. -/
theorem inv_read_bit (t : ℕ) (d : Bool) (s : CaliperState) (h : Inv s) :
    Inv (read_bit t d s) := by
  obtain ⟨h24, hraw⟩ := h
  have hpow : (2 : ℕ) ^ (s.bit_counter + 1) = 2 ^ s.bit_counter + 2 ^ s.bit_counter := by
    rw [Nat.pow_succ]; omega
  rcases le_or_lt (elapsed32 t s.last_interrupt_time) PACKET_TIMEOUT_US with hgap | hgap
  · rcases lt_or_ge s.bit_counter 24 with hk | hk
    · rw [read_bit_step t d s hgap hk]
      unfold Inv
      refine ⟨by dsimp only; omega, ?_⟩
      dsimp only
      cases d with
      | false =>
        simp only [Bool.false_eq_true, if_false]
        omega
      | true =>
        have hsh : (1 : ℕ) <<< s.bit_counter = 2 ^ s.bit_counter := by
          rw [Nat.shiftLeft_eq, Nat.one_mul]
        simp only [if_true, hsh, or_two_pow_of_lt _ _ hraw]
        omega
    · have hk' : s.bit_counter = 24 := by omega
      rw [read_bit_full t d s hgap hk']
      exact ⟨h24, hraw⟩
  · rw [read_bit_reset t d s hgap]
    unfold Inv
    refine ⟨by dsimp only; omega, ?_⟩
    dsimp only
    cases d <;> simp

/-- Any run of edges from the initial state keeps the invariant. -/
theorem inv_runEdges : ∀ (es : List (ℕ × Bool)) (s : CaliperState), Inv s → Inv (runEdges es s)
  | [], _, h => h
  | (t, d) :: es, s, h => inv_runEdges es (read_bit t d s) (inv_read_bit t d s h)

/-- The initial state satisfies the invariant. -/
theorem inv_initState : Inv initState := ⟨by decide, by decide⟩

/-- Accumulation: starting from any state whose gap conditions all hold and
whose frame has room, a burst of edges appends its bits LSB-first above the
bits already collected. -/
theorem runEdges_accum :
    ∀ (es : List (ℕ × Bool)) (s : CaliperState),
      gapsWithinB s.last_interrupt_time es = true →
      s.bit_counter + es.length ≤ 24 →
      s.caliper_raw_data < 2 ^ s.bit_counter →
      (runEdges es s).bit_counter = s.bit_counter + es.length ∧
      (runEdges es s).caliper_raw_data
        = s.caliper_raw_data + 2 ^ s.bit_counter * accumBits (es.map Prod.snd) := by
  intro es
  induction es with
  | nil =>
    intro s _ _ _
    simp [runEdges, accumBits]
  | cons e es ih =>
    obtain ⟨t, d⟩ := e
    intro s hg hlen hraw
    simp only [gapsWithinB, Bool.and_eq_true, decide_eq_true_eq] at hg
    obtain ⟨hg1, hg2⟩ := hg
    simp only [List.length_cons] at hlen
    have hk : s.bit_counter < 24 := by omega
    have hstep := read_bit_step t d s hg1 hk
    have hraw' :
        (read_bit t d s).caliper_raw_data
          = s.caliper_raw_data + 2 ^ s.bit_counter * (if d then 1 else 0) := by
      rw [hstep]
      cases d with
      | false => simp
      | true =>
        have hsh : (1 : ℕ) <<< s.bit_counter = 2 ^ s.bit_counter := by
          rw [Nat.shiftLeft_eq, Nat.one_mul]
        simp [hsh, or_two_pow_of_lt _ _ hraw]
    have hcnt' : (read_bit t d s).bit_counter = s.bit_counter + 1 := by rw [hstep]
    have hlast' : (read_bit t d s).last_interrupt_time = t % TWO32 := by rw [hstep]
    have hbound' : (read_bit t d s).caliper_raw_data < 2 ^ (read_bit t d s).bit_counter := by
      rw [hraw', hcnt', Nat.pow_succ]
      cases d <;> simp <;> omega
    have := ih (read_bit t d s) (by rw [hlast']; exact hg2)
      (by rw [hcnt']; omega) hbound'
    obtain ⟨ihc, ihr⟩ := this
    constructor
    · show (runEdges es (read_bit t d s)).bit_counter = _
      rw [ihc, hcnt']
      simp only [List.length_cons]
      omega
    · show (runEdges es (read_bit t d s)).caliper_raw_data = _
      rw [ihr, hraw', hcnt', List.map_cons]
      show _ = s.caliper_raw_data
          + 2 ^ s.bit_counter * ((if d then 1 else 0) + 2 * accumBits (es.map Prod.snd))
      rw [Nat.pow_succ]
      ring

/-- After any drain attempt the ready flag is down. -/
theorem loopDrain_clears (s : CaliperState) : (loopDrain s).2.new_packet_ready = false := by
  unfold loopDrain
  split_ifs with h
  · rfl
  · simpa using h

/-! ### Claim theorems -/

/-- C4: after every invocation of `read_bit` starting from the initial
zeroed state, `bit_counter` stays in `0..24` and every bit of
`caliper_raw_data` at a position at or above `bit_counter` is zero. -/
theorem accumulator_invariant (es : List (ℕ × Bool)) (i : ℕ) :
    (runEdges es initState).bit_counter ≤ 24 ∧
    ((runEdges es initState).bit_counter ≤ i →
      (runEdges es initState).caliper_raw_data.testBit i = false) := by
  obtain ⟨h24, hraw⟩ := inv_runEdges es initState inv_initState
  refine ⟨h24, fun hi => ?_⟩
  exact Nat.testBit_eq_false_of_lt
    (lt_of_lt_of_le hraw (Nat.pow_le_pow_right (by omega) hi))

/-- Witness for C4 at a concrete one-edge run and bit position 5. -/
theorem accumulator_invariant_witness :
    (runEdges [(6000, true)] initState).bit_counter ≤ 24 ∧
    (runEdges [(6000, true)] initState).caliper_raw_data.testBit 5 = false :=
  ⟨(accumulator_invariant [(6000, true)] 5).1,
   (accumulator_invariant [(6000, true)] 5).2 (by decide)⟩

/-- C2 counterexample: an inter-edge gap of exactly 5000 µs does NOT
discard the bits received before it, contrary to the claim's "≥ 5000 µs"
threshold.  The first edge (gap 10000 µs from the zeroed timestamp) starts
a frame and stores bit 0; the second edge arrives exactly 5000 µs later,
and the source's strict comparison `> PACKET_TIMEOUT_US` keeps the earlier
bit: the counter reaches 2 and the accumulator holds both bits, whereas
the claim demands a reset to a fresh count of 1 with only the new bit. -/
theorem framing_gap_exact_5000_not_discarded :
    (runEdges [(10000, true), (15000, true)] initState).bit_counter = 2 ∧
    (runEdges [(10000, true), (15000, true)] initState).caliper_raw_data = 3 ∧
    ¬ ((runEdges [(10000, true), (15000, true)] initState).bit_counter = 1 ∧
       (runEdges [(10000, true), (15000, true)] initState).caliper_raw_data = 1) := by
  decide

/-- C2 (amended): gaps of at most 5000 µs (wraparound-safe subtraction)
always accumulate, regardless of total elapsed time; a gap strictly greater
than 5000 µs discards the previously received bits (counter and accumulator
reset to 0) and the edge ending the gap starts a fresh count as bit 0. -/
theorem framing_accumulate_and_discard :
    (∀ (es : List (ℕ × Bool)) (s : CaliperState),
      s.bit_counter = 0 → s.caliper_raw_data = 0 →
      gapsWithinB s.last_interrupt_time es = true →
      es.length ≤ 24 →
      (runEdges es s).bit_counter = es.length ∧
      (runEdges es s).caliper_raw_data = accumBits (es.map Prod.snd)) ∧
    (∀ (t : ℕ) (d : Bool) (s : CaliperState),
      elapsed32 t s.last_interrupt_time > PACKET_TIMEOUT_US →
      read_bit t d s = ⟨(if d then 1 else 0), 1, s.new_packet_ready, t % TWO32⟩) := by
  constructor
  · intro es s h0 hr hg hlen
    have h := runEdges_accum es s hg (by omega) (by rw [h0, hr]; decide)
    rw [h0, hr] at h
    simpa using h
  · intro t d s h
    exact read_bit_reset t d s h

/-- Witness for C2 (amended): a three-edge burst with gaps of 100 µs
accumulates bits 1,0,1 into the value 5, and an edge after a 6000 µs gap
resets to a fresh single-bit frame. -/
theorem framing_accumulate_and_discard_witness :
    ((runEdges [(100, true), (200, false), (300, true)] initState).bit_counter = 3 ∧
     (runEdges [(100, true), (200, false), (300, true)] initState).caliper_raw_data = 5) ∧
    read_bit 6000 true initState = ⟨1, 1, false, 6000⟩ :=
  ⟨framing_accumulate_and_discard.1 [(100, true), (200, false), (300, true)] initState
      rfl rfl (by decide) (by decide),
   framing_accumulate_and_discard.2 6000 true initState (by decide)⟩

/-- C10: an edge arriving while `bit_counter` is 24, within the frame
timeout of the previous edge, leaves the accumulator and the counter
unchanged, updates the timestamp, and raises `new_packet_ready` again —
even if a drain had already cleared it. -/
theorem edge_at_full_frame_reasserts_ready :
    ∀ (t : ℕ) (d : Bool) (s : CaliperState),
      s.bit_counter = 24 →
      elapsed32 t s.last_interrupt_time ≤ PACKET_TIMEOUT_US →
      read_bit t d s
        = { s with new_packet_ready := true, last_interrupt_time := t % TWO32 } := by
  intro t d s h24 hgap
  rw [read_bit_full t d s hgap h24]

/-- Witness for C10: a concrete full-frame state with the ready flag already
drained; the extra edge re-raises it without touching the data. -/
theorem edge_at_full_frame_reasserts_ready_witness :
    read_bit 6100 true ⟨16777215, 24, false, 6000⟩ = ⟨16777215, 24, true, 6100⟩ :=
  edge_at_full_frame_reasserts_ready 6100 true ⟨16777215, 24, false, 6000⟩ rfl (by decide)

/-- C7: the gap computed by `read_bit`'s frame-start detection, `elapsed32`,
is the difference of the two timestamps modulo `2^32` (never the signed
difference), it always lands in `[0, 2^32)`, and `read_bit` itself cannot
distinguish a timestamp from its 32-bit wrapped value — so framing behaves
identically across the timer's overflow boundary. -/
theorem elapsed32_modular :
    ∀ t last : ℕ,
      ((elapsed32 t last : ℤ) = ((t : ℤ) - (last : ℤ)) % 2 ^ 32) ∧
      elapsed32 t last < 2 ^ 32 ∧
      ∀ (d : Bool) (s : CaliperState), read_bit t d s = read_bit (t % 2 ^ 32) d s := by
  intro t last
  have hN : (2 : ℕ) ^ 32 = 4294967296 := by norm_num
  have hZ : (2 : ℤ) ^ 32 = 4294967296 := by norm_num
  refine ⟨?_, ?_, ?_⟩
  · rw [hZ]
    unfold elapsed32 TWO32
    omega
  · rw [hN]
    unfold elapsed32 TWO32
    omega
  · intro d s
    have h1 : elapsed32 (t % 2 ^ 32) s.last_interrupt_time
        = elapsed32 t s.last_interrupt_time := by
      unfold elapsed32 TWO32
      rw [hN]
      omega
    have h2 : t % 2 ^ 32 % TWO32 = t % TWO32 := by
      unfold TWO32
      rw [hN]
      omega
    simp only [read_bit, h1, h2]

set_option maxRecDepth 4000 in
/-- C3 counterexample: a completed frame is drained once, then a single
extra clock edge arrives (within the timeout, while `bit_counter` is 24);
the next poll returns the very same frame a second time although no new
frame has completed — only one edge, not 24, separates the two drains. -/
theorem frame_redelivered_after_extra_edge :
    (runEvents
        (((List.range 24).map (fun i => Ev.edge (6000 + 100 * i) true))
          ++ [Ev.poll, Ev.edge 8400 true, Ev.poll])
        initState).2
      = List.replicate 24 none ++ [some 16777215, none, some 16777215] := by
  decide

/-- C3 (amended): a completed frame is returned at most once per drain as
long as no further edge intervenes: once a poll has drained the frame, all
subsequent polls return nothing until `read_bit` runs again (a new frame
completing, or an extra edge at a full accumulator re-raising the flag). -/
theorem drain_exactly_once_without_edges :
    ∀ (s : CaliperState) (n : ℕ),
      (((runEvents (List.replicate n Ev.poll) (loopDrain s).2).2).all
        fun o => o.isNone) = true := by
  have hkey : ∀ (n : ℕ) (s' : CaliperState), s'.new_packet_ready = false →
      (((runEvents (List.replicate n Ev.poll) s').2).all fun o => o.isNone) = true := by
    intro n
    induction n with
    | zero =>
      intro s' _
      rfl
    | succ n ih =>
      intro s' h
      have hd : loopDrain s' = (none, s') := by
        unfold loopDrain
        rw [if_neg (by simp [h])]
      simp only [List.replicate_succ, runEvents, hd]
      simpa using ih s' h
  intro s n
  exact hkey n (loopDrain s).2 (loopDrain_clears s)

set_option maxRecDepth 4000 in
/-- C9 counterexample: frame A (value 16777215) completes and is still
undrained; the consumer observes the ready flag, but before its critical
section runs, one edge of the next frame fires after a long gap, resetting
the accumulator and storing one new bit.  The drain then returns the
partially accumulated next frame (value 1) — neither the complete previous
frame nor a "not ready" indication. -/
theorem drain_partial_next_frame :
    (drainWithEdges [(14400, true)]
        (runEdges ((List.range 24).map (fun i => (6000 + 100 * i, true))) initState)).1
      = some 1 ∧
    (runEdges ((List.range 24).map (fun i => (6000 + 100 * i, true)))
        initState).caliper_raw_data = 16777215 ∧
    (some 1 : Option ℕ) ≠ none ∧ (1 : ℕ) ≠ 16777215 := by
  decide

/-- C9 (amended): the drained value is never a torn mix of old and new
bits — it is always exactly the value `caliper_raw_data` holds at the
instant of the (interrupt-disabled, hence atomic) copy; in particular,
when no edge intervenes between the ready check and the critical section,
it is exactly the completed previous frame. -/
theorem drain_atomic_snapshot :
    (∀ (mid : List (ℕ × Bool)) (s : CaliperState),
      (drainWithEdges mid s).1 = none ∨
      (drainWithEdges mid s).1 = some (runEdges mid s).caliper_raw_data) ∧
    (∀ s : CaliperState, s.new_packet_ready = true →
      (drainWithEdges [] s).1 = some s.caliper_raw_data) := by
  constructor
  · intro mid s
    unfold drainWithEdges
    split_ifs with h
    · right
      rfl
    · left
      rfl
  · intro s h
    unfold drainWithEdges
    rw [if_pos h]
    rfl

/-- Witness for C9 (amended): an undisturbed drain of a ready frame
returns exactly that frame. -/
theorem drain_atomic_snapshot_witness :
    (drainWithEdges [] ⟨16777215, 24, true, 8300⟩).1 = some 16777215 :=
  drain_atomic_snapshot.2 ⟨16777215, 24, true, 8300⟩ rfl

/-! ### Packet decoder claims -/

/-- The clamped signed magnitude computed by `handleData`. -/
theorem decodeFrame_integerMeasurement (dc : ℕ) :
    (decodeFrame dc).integerMeasurement
      = constrain (((dc &&& 0xFFFFF : ℕ) : ℤ)
          * (if bitRead ((dc >>> 20) &&& 0xF) 0 ≠ 0 then -1 else 1)) (-15000) 15000 := rfl

/-- The millimeter value before unit conversion is the clamped magnitude
divided by 100. -/
theorem decodeFrame_measurementMm (dc : ℕ) :
    (decodeFrame dc).measurementMm = ((decodeFrame dc).integerMeasurement : ℚ) / 100 := rfl

/-- The unit flag mirrors bit 3 of the flag nibble. -/
theorem decodeFrame_inch (dc : ℕ) :
    (decodeFrame dc).inch = (bitRead ((dc >>> 20) &&& 0xF) 3 != 0) := rfl

/-- The flag nibble is bits 20–23 of the frame. -/
theorem decodeFrame_flags (dc : ℕ) :
    (decodeFrame dc).flags = (dc >>> 20) &&& 0xF := rfl

/-- The final measurement divides by 25.4 exactly when the unit flag is set. -/
theorem decodeFrame_measurement (dc : ℕ) :
    (decodeFrame dc).measurement
      = (if (decodeFrame dc).inch then (decodeFrame dc).measurementMm / (254 / 10)
         else (decodeFrame dc).measurementMm) := rfl

/-- C1: for every 24-bit frame the decoder produces a value; the signed
magnitude is clamped into `[-15000, 15000]` hundredths of a millimeter,
and the millimeter value before unit conversion is that clamped magnitude
divided by 100, hence in `[-150, 150]`. -/
theorem handleData_decode_bounded :
    ∀ data_copy : ℕ, data_copy < 2 ^ 24 →
      -15000 ≤ (decodeFrame data_copy).integerMeasurement ∧
      (decodeFrame data_copy).integerMeasurement ≤ 15000 ∧
      (decodeFrame data_copy).measurementMm
        = ((decodeFrame data_copy).integerMeasurement : ℚ) / 100 ∧
      -150 ≤ (decodeFrame data_copy).measurementMm ∧
      (decodeFrame data_copy).measurementMm ≤ 150 := by
  intro dc _
  obtain ⟨hlo, hhi⟩ := constrain_mem
    (((dc &&& 0xFFFFF : ℕ) : ℤ) * (if bitRead ((dc >>> 20) &&& 0xF) 0 ≠ 0 then -1 else 1))
    (-15000) 15000 (by norm_num)
  have h1 : -15000 ≤ (decodeFrame dc).integerMeasurement := by
    rw [decodeFrame_integerMeasurement]
    exact hlo
  have h2 : (decodeFrame dc).integerMeasurement ≤ 15000 := by
    rw [decodeFrame_integerMeasurement]
    exact hhi
  refine ⟨h1, h2, decodeFrame_measurementMm dc, ?_, ?_⟩
  · rw [decodeFrame_measurementMm]
    have : ((-15000 : ℤ) : ℚ) ≤ ((decodeFrame dc).integerMeasurement : ℚ) := by
      exact_mod_cast h1
    push_cast at this
    linarith
  · rw [decodeFrame_measurementMm]
    have : ((decodeFrame dc).integerMeasurement : ℚ) ≤ ((15000 : ℤ) : ℚ) := by
      exact_mod_cast h2
    push_cast at this
    linarith

/-- Witness for C1 at the frame 14942 (the spec's end-to-end example). -/
theorem handleData_decode_bounded_witness :
    -15000 ≤ (decodeFrame 14942).integerMeasurement ∧
    (decodeFrame 14942).integerMeasurement ≤ 15000 ∧
    (decodeFrame 14942).measurementMm = ((decodeFrame 14942).integerMeasurement : ℚ) / 100 ∧
    -150 ≤ (decodeFrame 14942).measurementMm ∧
    (decodeFrame 14942).measurementMm ≤ 150 :=
  handleData_decode_bounded 14942 (by norm_num)

/-- C5 counterexample: `handleData` is not free of side effects — a single
call on an empty serial log leaves the log nonempty, because it calls
`printResultToOutput` (serial I/O) after storing its result in globals. -/
theorem handleData_writes_serial :
    (handleData 0 ⟨0, false, []⟩).serial ≠ ([] : List (ℕ × ℚ × ℕ)) := by
  decide

/-- C5 (amended): `handleData` is deterministic — the `measurement` and
`inch` it leaves behind depend only on its frame argument, given by the
pure function `decodeFrame` — but it is effectful: it stores the result in
globals and appends exactly one diagnostic line to the serial output. -/
theorem handleData_deterministic_effects :
    ∀ (data_copy : ℕ) (g : Globals),
      (handleData data_copy g).measurement = (decodeFrame data_copy).measurement ∧
      (handleData data_copy g).inch = (decodeFrame data_copy).inch ∧
      (handleData data_copy g).serial
        = g.serial ++ [(data_copy, (decodeFrame data_copy).measurement,
            (decodeFrame data_copy).flags)] :=
  fun _ _ => ⟨rfl, rfl, rfl⟩

/-- Modelled from the spec: the repository contains no encoder, so the
24-bit frame layout documented in the spec (low 20 bits = magnitude in
hundredths of a millimeter, bit 20 = sign, bit 23 = unit) is realized here
as an encoding function for the round-trip property. -/
def encodeFrame (magnitude : ℕ) (sign unit : Bool) : ℕ :=
  magnitude + (if sign then 2 ^ 20 else 0) + (if unit then 2 ^ 23 else 0)

/-- C6: encoding a magnitude of at most 15000 hundredths of a millimeter
with any sign and unit bit, then decoding, reproduces the signed magnitude
in millimeters (exactly, over ℚ) and the unit flag. -/
theorem encode_decode_roundtrip :
    ∀ (n : ℕ) (s u : Bool), n ≤ 15000 →
      (decodeFrame (encodeFrame n s u)).measurementMm
        = (if s then -1 else 1) * (n : ℚ) / 100 ∧
      (decodeFrame (encodeFrame n s u)).inch = u := by
  intro n s u hn
  have hmask : encodeFrame n s u &&& 0xFFFFF = n := by
    have h20 : (0xFFFFF : ℕ) = 2 ^ 20 - 1 := by norm_num
    rw [h20, Nat.and_pow_two_sub_one_eq_mod, encodeFrame]
    cases s <;> cases u <;> simp <;> omega
  have hflags : (encodeFrame n s u >>> 20) &&& 0xF
      = (if s then 1 else 0) + (if u then 8 else 0) := by
    have h4 : (0xF : ℕ) = 2 ^ 4 - 1 := by norm_num
    rw [h4, Nat.and_pow_two_sub_one_eq_mod, Nat.shiftRight_eq_div_pow, encodeFrame]
    cases s <;> cases u <;> simp <;> omega
  have him : (decodeFrame (encodeFrame n s u)).integerMeasurement
      = (if s then -(n : ℤ) else (n : ℤ)) := by
    rw [decodeFrame_integerMeasurement, hmask, hflags]
    cases s <;> cases u <;>
      norm_num [bitRead, constrain] <;>
      split_ifs <;> omega
  constructor
  · rw [decodeFrame_measurementMm, him]
    cases s <;> norm_num
  · rw [decodeFrame_inch, hflags]
    cases s <;> cases u <;> rfl

/-- Witness for C6 at magnitude 14942, sign set, millimeter unit. -/
theorem encode_decode_roundtrip_witness :
    (decodeFrame (encodeFrame 14942 true false)).measurementMm
      = (if true then (-1 : ℚ) else 1) * (14942 : ℚ) / 100 ∧
    (decodeFrame (encodeFrame 14942 true false)).inch = false :=
  encode_decode_roundtrip 14942 true false (by norm_num)

/-- C8: two 24-bit frames that differ only in the reserved bits 21 and 22
decode to the same measurement (both before and after unit conversion) and
the same unit flag. -/
theorem reserved_bits_no_influence :
    ∀ f1 f2 : ℕ, f1 < 2 ^ 24 → f2 < 2 ^ 24 →
      (∀ i : ℕ, i ≠ 21 → i ≠ 22 → f1.testBit i = f2.testBit i) →
      (decodeFrame f1).measurement = (decodeFrame f2).measurement ∧
      (decodeFrame f1).measurementMm = (decodeFrame f2).measurementMm ∧
      (decodeFrame f1).inch = (decodeFrame f2).inch := by
  intro f1 f2 _ _ hbits
  have hmask : f1 &&& 0xFFFFF = f2 &&& 0xFFFFF := by
    apply Nat.eq_of_testBit_eq
    intro i
    rw [Nat.testBit_land, Nat.testBit_land]
    have hm : (0xFFFFF : ℕ) = 2 ^ 20 - 1 := by norm_num
    rw [hm, Nat.testBit_two_pow_sub_one]
    by_cases h : i < 20
    · rw [hbits i (by omega) (by omega)]
    · simp [h]
  have hb0 : bitRead ((f1 >>> 20) &&& 0xF) 0 = bitRead ((f2 >>> 20) &&& 0xF) 0 := by
    rw [bitRead_eq_testBit, bitRead_eq_testBit, Nat.testBit_land, Nat.testBit_land,
      Nat.testBit_shiftRight, Nat.testBit_shiftRight, hbits 20 (by omega) (by omega)]
  have hb3 : bitRead ((f1 >>> 20) &&& 0xF) 3 = bitRead ((f2 >>> 20) &&& 0xF) 3 := by
    rw [bitRead_eq_testBit, bitRead_eq_testBit, Nat.testBit_land, Nat.testBit_land,
      Nat.testBit_shiftRight, Nat.testBit_shiftRight, hbits 23 (by omega) (by omega)]
  have hmm : (decodeFrame f1).measurementMm = (decodeFrame f2).measurementMm := by
    rw [decodeFrame_measurementMm, decodeFrame_measurementMm,
      decodeFrame_integerMeasurement, decodeFrame_integerMeasurement, hmask, hb0]
  have hin : (decodeFrame f1).inch = (decodeFrame f2).inch := by
    rw [decodeFrame_inch, decodeFrame_inch, hb3]
  have hms : (decodeFrame f1).measurement = (decodeFrame f2).measurement := by
    rw [decodeFrame_measurement, decodeFrame_measurement, hmm, hin]
  exact ⟨hms, hmm, hin⟩

/-- Witness for C8: the frame 14942 against the same frame with bits 21 and
22 raised (6306398). -/
theorem reserved_bits_no_influence_witness :
    (decodeFrame 14942).measurement = (decodeFrame 6306398).measurement ∧
    (decodeFrame 14942).measurementMm = (decodeFrame 6306398).measurementMm ∧
    (decodeFrame 14942).inch = (decodeFrame 6306398).inch :=
  reserved_bits_no_influence 14942 6306398 (by norm_num) (by norm_num) (by
    intro i h21 h22
    have hor : (6306398 : ℕ) = 14942 ||| (2 ^ 21 ||| 2 ^ 22) := by decide
    rw [hor, Nat.testBit_lor, Nat.testBit_lor, Nat.testBit_two_pow, Nat.testBit_two_pow]
    simp [Ne.symm h21, Ne.symm h22])

end DigitalCaliper
